import Mathlib

/-!
Shallow embedding of the Soma AI tutor core (src/soma_ai_tutor/core.py) and
verification of its specification.  Strings are modelled as lists of
characters; the persisted progress file and the notes directory are modelled
as explicit state; the external generative-AI call is modelled as an oracle
assigning an outcome to each model name, as the spec's design notes direct.
-/

namespace Soma

/-- Strings are modelled as lists of characters. -/
abbrev Str : Type := List Char

/-- Converts a Lean string literal into the list-of-characters model. -/
def str (s : String) : Str := s.data

/-- Whitespace-separated pieces of a character list, keeping empty pieces:
the piece structure underlying Python str.split() with no arguments. -/
def splitWs : Str → List Str
  | [] => [[]]
  | c :: cs =>
    if c.isWhitespace then [] :: splitWs cs
    else
      match splitWs cs with
      | [] => [[c]]
      | w :: ws => (c :: w) :: ws

/-- Python topic.split(): maximal whitespace-free words, empty pieces dropped. -/
def words (l : Str) : List Str := (splitWs l).filter (fun w => w ≠ [])

/-- Removes leading whitespace. -/
def trimLeft (l : Str) : Str := l.dropWhile Char.isWhitespace

/-- Python str.strip(): removes leading and trailing whitespace. -/
def trim (l : Str) : Str := ((trimLeft l).reverse.dropWhile Char.isWhitespace).reverse

/-- Python " ".join(ws): words interleaved with single spaces. -/
def joinSp : List Str → Str
  | [] => []
  | [w] => w
  | w :: w' :: ws => w ++ ' ' :: joinSp (w' :: ws)

/-- normalize_topic (core.py line 48-49): " ".join(topic.strip().split()).lower().
Python str.lower() is modelled by Char.toLower on each character. -/
def normalize_topic (topic : Str) : Str :=
  (joinSp (words (trim topic))).map Char.toLower

/-- Python dict lookup d.get(k, 0) on an insertion-ordered association list. -/
def getD : List (Str × Int) → Str → Int
  | [], _ => 0
  | (k, v) :: rest, key => if k = key then v else getD rest key

/-- Python dict assignment d[k] = v on an insertion-ordered association list:
replaces the value in place when the key is present, otherwise appends. -/
def dictSet : List (Str × Int) → Str → Int → List (Str × Int)
  | [], k, v => [(k, v)]
  | (k', v') :: rest, k, v =>
    if k' = k then (k, v) :: rest else (k', v') :: dictSet rest k v

/-- The persisted progress-file content as the tracker's own writes and the
caught-exception path see it: none models content whose read or parse raises
(json.loads failing inside the try/except); some gives a parsed JSON
object's entries in insertion order, where a value is some n exactly when
Python int(value) succeeds and yields n, and none when the value is not
integer-coercible.  This type covers the payloads on which load_progress
returns; text that parses as valid JSON which is not an object lies outside
it — RawStore below models the full payload space, on which loading is
fallible. -/
abbrev Store := Option (List (Str × Option Int))

/-- The loop body of load_progress (core.py lines 59-66): the entry's key is
normalized, entries with an empty normalized key or a non-coercible value are
skipped, and counts accumulate via cleaned[k] = cleaned.get(k, 0) + int(value). -/
def loadStep (cleaned : List (Str × Int)) (kv : Str × Option Int) : List (Str × Int) :=
  let tk := normalize_topic kv.1
  if tk = [] then cleaned
  else
    match kv.2 with
    | none => cleaned
    | some n => dictSet cleaned tk (getD cleaned tk + n)

/-- load_progress (core.py lines 52-67) on the payloads it returns from:
content whose read or parse raises degrades to the empty map; a parsed
object has the per-entry validation folded over its entries, starting from
the empty map.  The behavior on the remaining payloads — valid JSON that is
not an object — is load_progress_raw below, which raises instead of
returning. -/
def load_progress (store : Store) : List (Str × Int) :=
  match store with
  | none => []
  | some entries => entries.foldl loadStep []

/-- A Python exception escaping a call in the model. -/
inductive PyError where
  | attributeError
deriving DecidableEq

/-- The full space of persisted progress-file payloads.  unreadable: reading
the file or json.loads raises, the only cases the try/except at core.py
lines 53-56 catches; nonObject: the text (carried verbatim) parses as valid
JSON that is not an object — a list, string, number, or boolean/null; obj: a
JSON object with its entries in insertion order, as in Store. -/
inductive RawStore where
  | unreadable
  | nonObject (jsonText : Str)
  | obj (entries : List (Str × Option Int))

/-- load_progress (core.py lines 52-67) over the full payload space: only
PROGRESS_FILE.read_text and json.loads sit inside the try (lines 53-56), so
an unreadable or malformed file degrades to raw = {} and yields the empty
map, but a parsed non-object payload reaches the unguarded raw.items() call
on line 59, which raises AttributeError out of load_progress. -/
def load_progress_raw : RawStore → Except PyError (List (Str × Int))
  | .unreadable => .ok []
  | .nonObject _ => .error .attributeError
  | .obj entries => .ok (entries.foldl loadStep [])

/-- save_progress (core.py lines 70-71): json.dump of the map; JSON
round-trips string keys and integer values exactly. -/
def save_progress (data : List (Str × Int)) : Store :=
  some (data.map (fun kv => (kv.1, some kv.2)))

/-- update_progress (core.py lines 204-210), with the persisted file as
explicit state: no-op on an empty normalized key, otherwise reload,
increment, and persist the full map. -/
def update_progress (store : Store) (topic : Str) : Store :=
  let tk := normalize_topic topic
  if tk = [] then store
  else
    let data := load_progress store
    save_progress (dictSet data tk (getD data tk + 1))

/-- get_difficulty (core.py lines 195-202). -/
def get_difficulty (store : Store) (topic : Str) : Str :=
  let score := getD (load_progress store) (normalize_topic topic)
  if score > 5 then str "easy"
  else if score > 2 then str "medium"
  else str "hard"

/-- One part of a response candidate's content; its text attribute. -/
structure GenPart where
  text : Str

/-- The content of a response candidate; may be absent (None) on the
candidate, in which case attribute access raises. -/
structure GenContent where
  parts : List GenPart

/-- One candidate of a response. -/
structure GenCandidate where
  content : Option GenContent

/-- Model of the SDK response object seen by _extract_text: text is none when
the attribute is absent or None, some [] when present but empty (both falsy in
Python); repr models str(response). -/
structure GenResponse where
  text : Option Str
  candidates : List GenCandidate
  repr : Str

/-- The nested access response.candidates[0].content.parts[0].text of
_extract_text (core.py line 108): every way the access can raise (no
candidate, content None, no part) falls back to str(response) via the
enclosing try/except. -/
def extractDeep (r : GenResponse) : Str :=
  match r.candidates with
  | [] => r.repr
  | c :: _ =>
    match c.content with
    | none => r.repr
    | some ct =>
      match ct.parts with
      | [] => r.repr
      | p :: _ => p.text

/-- _extract_text (core.py lines 104-110): the direct text field when present
and non-empty, otherwise the deep extraction with its fallback. -/
def extract_text (r : GenResponse) : Str :=
  match r.text with
  | some t => if t = [] then extractDeep r else t
  | none => extractDeep r

/-- Lowercases every character: Python str.lower(). -/
def lowerStr (s : Str) : Str := s.map Char.toLower

/-- Python substring test: needle in hay. -/
def containsSub (hay needle : Str) : Bool := decide (needle <:+: hay)

/-- _is_not_found (core.py lines 112-114). -/
def is_not_found (err : Str) : Bool :=
  let lower := lowerStr err
  containsSub lower (str "404") &&
    (containsSub lower (str "not_found") || containsSub lower (str "not found"))

/-- The closed set of error-classification tags, plus OK for a successful
probe in check_access. -/
inductive Tag where
  | OK
  | NOT_FOUND
  | QUOTA_EXHAUSTED
  | AUTH
  | PERMISSION
  | TIMEOUT
  | ERROR
deriving DecidableEq

/-- The quota condition of _classify_error (core.py line 120). -/
def quotaTrigger (lower : Str) : Bool :=
  containsSub lower (str "429") || containsSub lower (str "resource_exhausted")

/-- The auth condition of _classify_error (core.py line 122). -/
def authTrigger (lower : Str) : Bool :=
  containsSub lower (str "401") || containsSub lower (str "unauthenticated")
    || containsSub lower (str "invalid api key")

/-- The permission condition of _classify_error (core.py line 124). -/
def permTrigger (lower : Str) : Bool :=
  containsSub lower (str "403") || containsSub lower (str "permission_denied")

/-- The timeout condition of _classify_error (core.py line 126). -/
def timeoutTrigger (lower : Str) : Bool :=
  containsSub lower (str "deadline_exceeded") || containsSub lower (str "timed out")
    || containsSub lower (str "timeout")

/-- _classify_error (core.py lines 116-128). -/
def classify_error (err : Str) : Tag :=
  let lower := lowerStr err
  if is_not_found err then .NOT_FOUND
  else if quotaTrigger lower then .QUOTA_EXHAUSTED
  else if authTrigger lower then .AUTH
  else if permTrigger lower then .PERMISSION
  else if timeoutTrigger lower then .TIMEOUT
  else .ERROR

/-- Outcome of one external generate_content call for a given model name:
success with a response object, or an exception whose str() is the error
text.  A function Str → CallResult assigns an outcome to every model. -/
inductive CallResult where
  | success (resp : GenResponse)
  | failure (err : Str)

/-- The candidate loop of generate (core.py lines 131-145), carrying the
last_error accumulator. -/
def generateAux (call : Str → CallResult) : List Str → Str → Str
  | [], lastErr =>
    str "Gemini API Error: all candidate models failed. Last error: " ++ lastErr
  | m :: rest, _lastErr =>
    match call m with
    | .success resp => extract_text resp
    | .failure e =>
      if is_not_found e then generateAux call rest (m ++ str ": " ++ e)
      else str "Gemini API Error: " ++ e

/-- generate (core.py lines 130-145): last_error starts empty. -/
def generate (call : Str → CallResult) (candidates : List Str) : Str :=
  generateAux call candidates []

/-- is_api_error_text (core.py lines 93-94). -/
def is_api_error_text (text : Str) : Bool :=
  (str "Gemini API Error:").isPrefixOf text

/-- The outcome tag of probing one model in check_access (core.py lines
159-172): OK on success, the classified error otherwise. -/
def probeTag (call : Str → CallResult) (m : Str) : Tag :=
  match call m with
  | .success _ => .OK
  | .failure e => classify_error e

/-- The per-tag tally statuses of check_access (core.py lines 149-172). -/
def statuses (call : Str → CallResult) (candidates : List Str) (t : Tag) : Nat :=
  (candidates.map (probeTag call)).count t

/-- The summary verdict line chosen by check_access (core.py lines 180-191),
with the exact sentences of the source. -/
def check_access_verdict (call : Str → CallResult) (candidates : List Str) : Str :=
  if statuses call candidates .OK > 0 then
    str "Result: Gemini is reachable. At least one configured model works."
  else if statuses call candidates .AUTH > 0 then
    str "Blocked by authentication. Check GOOGLE_API_KEY."
  else if statuses call candidates .PERMISSION > 0 then
    str "Blocked by project/API permissions for this key."
  else if statuses call candidates .QUOTA_EXHAUSTED > 0 then
    str "Blocked by quota/billing limits on this project."
  else if statuses call candidates .NOT_FOUND = candidates.length then
    str "Blocked by model names. None of the configured models are available."
  else
    str "Blocked by API/network/runtime errors. See per-model details above."

/-- The tutor's file-system state: the progress store plus the note files
created so far, in creation order (save_note's timestamp naming is not
modelled; each call creates one new note holding the text). -/
structure TutorState where
  progress : Store
  notes : List Str

/-- save_note (core.py lines 305-309): writes one new note file. -/
def save_note (st : TutorState) (text : Str) : TutorState :=
  { st with notes := st.notes ++ [text] }

/-- run_and_track (core.py lines 311-317): result is the string the invoked
operation returned; on a dispatcher failure nothing is mutated, otherwise
progress is updated and the result saved as a note (the returned note is the
saved text). -/
def run_and_track (st : TutorState) (topic : Str) (result : Str) :
    (Str × Option Str) × TutorState :=
  if is_api_error_text result then ((result, none), st)
  else
    let st1 : TutorState := { st with progress := update_progress st.progress topic }
    let st2 := save_note st1 result
    ((result, some result), st2)

/-! ### Derived definitions used by the verification -/

/-- A word contains no whitespace. -/
def wsFree (w : Str) : Prop := ∀ c ∈ w, c.isWhitespace = false

/-- The keys of a progress map, in insertion order. -/
def keysOf (m : List (Str × Int)) : List Str := m.map Prod.fst

/-- A canonical progress map: every key is non-empty and fixed by
normalization, and keys are duplicate-free.  Every map produced by
load_progress is canonical. -/
def Canon (m : List (Str × Int)) : Prop :=
  (∀ p ∈ m, p.1 ≠ [] ∧ normalize_topic p.1 = p.1) ∧ (keysOf m).Nodup

/-- The contribution of one raw persisted entry to the final count of the
normalized key k: its coerced integer value when its key normalizes to k,
and 0 when it normalizes elsewhere or the value is not coercible. -/
def contrib (k : Str) (kv : Str × Option Int) : Int :=
  if normalize_topic kv.1 = k then
    match kv.2 with
    | some n => n
    | none => 0
  else 0

/-- Does a call outcome consist of a failure whose error text is classified
as "model not found"? -/
def isNotFoundFailure : CallResult → Bool
  | .success _ => false
  | .failure e => is_not_found e

/-- A concrete outcome assignment under which every model fails with a
"not found" style error. -/
def callNotFound : Str → CallResult :=
  fun m =>
    if m = str "modelA" then .failure (str "404 not_found: modelA")
    else .failure (str "404 NOT Found: other")

/-! ### Character-level lemmas -/

theorem toNat_ofNat_valid (n : Nat) (h : n.isValidChar) : (Char.ofNat n).toNat = n := by
  simp [Char.ofNat, dif_pos h, Char.ofNatAux, Char.toNat, UInt32.toNat, BitVec.toNat_ofNatLt]

theorem toLower_toNat_of_upper (c : Char) (h : 65 ≤ c.toNat ∧ c.toNat ≤ 90) :
    (Char.toLower c).toNat = c.toNat + 32 := by
  unfold Char.toLower
  simp only [if_pos h]
  apply toNat_ofNat_valid
  left
  omega

theorem toLower_eq_self (c : Char) (h : ¬ (65 ≤ c.toNat ∧ c.toNat ≤ 90)) :
    Char.toLower c = c := by
  unfold Char.toLower
  simp only [ge_iff_le, if_neg h]

theorem toLower_idem (c : Char) : Char.toLower (Char.toLower c) = Char.toLower c := by
  by_cases h : 65 ≤ c.toNat ∧ c.toNat ≤ 90
  · have h2 := toLower_toNat_of_upper c h
    apply toLower_eq_self
    omega
  · rw [toLower_eq_self c h, toLower_eq_self c h]

theorem isWhitespace_eq_false_of_toNat (d : Char) (h : 33 ≤ d.toNat) :
    d.isWhitespace = false := by
  unfold Char.isWhitespace
  simp only [Bool.or_eq_false_iff, decide_eq_false_iff_not]
  refine ⟨⟨⟨?_, ?_⟩, ?_⟩, ?_⟩ <;> intro he <;> subst he <;> exact absurd h (by decide)

theorem isWhitespace_toLower (c : Char) :
    (Char.toLower c).isWhitespace = c.isWhitespace := by
  by_cases h : 65 ≤ c.toNat ∧ c.toNat ≤ 90
  · have h2 := toLower_toNat_of_upper c h
    rw [isWhitespace_eq_false_of_toNat c (by omega),
        isWhitespace_eq_false_of_toNat _ (by omega)]
  · rw [toLower_eq_self c h]

/-! ### splitWs and words lemmas -/

theorem splitWs_ne_nil (l : Str) : splitWs l ≠ [] := by
  cases l with
  | nil => simp [splitWs]
  | cons c cs =>
    unfold splitWs
    by_cases h : c.isWhitespace
    · simp [h]
    · simp only [h]
      cases splitWs cs <;> simp

theorem splitWs_cons_ws (c : Char) (cs : Str) (h : c.isWhitespace = true) :
    splitWs (c :: cs) = [] :: splitWs cs := by
  conv_lhs => unfold splitWs
  rw [if_pos h]

theorem splitWs_cons_not_ws (c : Char) (cs : Str) (h : c.isWhitespace = false)
    (w : Str) (ws : List Str) (hsp : splitWs cs = w :: ws) :
    splitWs (c :: cs) = (c :: w) :: ws := by
  conv_lhs => unfold splitWs
  rw [if_neg (by simp [h]), hsp]

theorem splitWs_wsFree (l : Str) : ∀ w ∈ splitWs l, wsFree w := by
  induction l with
  | nil =>
    intro w hw
    simp [splitWs] at hw
    subst hw
    intro c hc
    simp at hc
  | cons c cs ih =>
    intro w hw
    by_cases h : c.isWhitespace = true
    · rw [splitWs_cons_ws c cs h] at hw
      rcases List.mem_cons.mp hw with hw | hw
      · subst hw; intro x hx; simp at hx
      · exact ih w hw
    · have h' : c.isWhitespace = false := by simpa using h
      rcases hsp : splitWs cs with _ | ⟨w', ws'⟩
      · exact absurd hsp (splitWs_ne_nil cs)
      · rw [splitWs_cons_not_ws c cs h' w' ws' hsp] at hw
        rcases List.mem_cons.mp hw with hw | hw
        · subst hw
          intro x hx
          rcases List.mem_cons.mp hx with hx | hx
          · subst hx; exact h'
          · exact ih w' (by rw [hsp]; exact List.mem_cons_self w' ws') x hx
        · exact ih w (by rw [hsp]; exact List.mem_cons_of_mem w' hw)

theorem words_wsFree (l : Str) : ∀ w ∈ words l, wsFree w := by
  intro w hw
  exact splitWs_wsFree l w (List.mem_of_mem_filter hw)

theorem words_ne_nil (l : Str) : ∀ w ∈ words l, w ≠ [] := by
  intro w hw
  have := List.of_mem_filter hw
  simpa using this

theorem splitWs_eq_single (w : Str) (h : wsFree w) : splitWs w = [w] := by
  induction w with
  | nil => rfl
  | cons c cs ih =>
    have hc : c.isWhitespace = false := h c (List.mem_cons_self c cs)
    have hcs : wsFree cs := fun x hx => h x (List.mem_cons_of_mem c hx)
    rw [splitWs_cons_not_ws c cs hc cs [] (ih hcs)]

theorem splitWs_append_word (w : Str) (h : wsFree w) (rest : Str) (p : Str)
    (ps : List Str) (hsp : splitWs rest = p :: ps) :
    splitWs (w ++ rest) = (w ++ p) :: ps := by
  induction w with
  | nil => simpa using hsp
  | cons c cs ih =>
    have hc : c.isWhitespace = false := h c (List.mem_cons_self c cs)
    have hcs : wsFree cs := fun x hx => h x (List.mem_cons_of_mem c hx)
    rw [List.cons_append, splitWs_cons_not_ws c (cs ++ rest) hc (cs ++ p) ps (ih hcs)]
    simp

theorem splitWs_all_ws (l : Str) (h : ∀ c ∈ l, c.isWhitespace = true) :
    splitWs l = List.replicate (l.length + 1) [] := by
  induction l with
  | nil => rfl
  | cons c cs ih =>
    rw [splitWs_cons_ws c cs (h c (List.mem_cons_self c cs)),
        ih (fun x hx => h x (List.mem_cons_of_mem c hx))]
    rfl

theorem splitWs_append_ws_suffix (l suf : Str) (h : ∀ c ∈ suf, c.isWhitespace = true) :
    splitWs (l ++ suf) = splitWs l ++ List.replicate suf.length [] := by
  induction l with
  | nil =>
    rw [List.nil_append, splitWs_all_ws suf h]
    simp [splitWs, List.replicate_succ]
  | cons c cs ih =>
    by_cases hc : c.isWhitespace = true
    · rw [List.cons_append, splitWs_cons_ws c _ hc, splitWs_cons_ws c cs hc, ih,
        List.cons_append]
    · have hc' : c.isWhitespace = false := by simpa using hc
      rcases hsp : splitWs cs with _ | ⟨w', ws'⟩
      · exact absurd hsp (splitWs_ne_nil cs)
      · have h2 : splitWs (cs ++ suf) = w' :: (ws' ++ List.replicate suf.length []) := by
          rw [ih, hsp]; rfl
        rw [List.cons_append, splitWs_cons_not_ws c _ hc' w' _ h2,
            splitWs_cons_not_ws c cs hc' w' ws' hsp]
        simp

theorem filter_ne_nil_replicate (n : Nat) :
    List.filter (fun w : Str => w ≠ []) (List.replicate n []) = [] := by
  induction n with
  | zero => rfl
  | succ n ih => rw [List.replicate_succ, List.filter_cons]; simp [ih]

theorem words_append_ws_suffix (l suf : Str) (h : ∀ c ∈ suf, c.isWhitespace = true) :
    words (l ++ suf) = words l := by
  unfold words
  rw [splitWs_append_ws_suffix l suf h, List.filter_append, filter_ne_nil_replicate,
    List.append_nil]

theorem words_ws_cons (c : Char) (l : Str) (h : c.isWhitespace = true) :
    words (c :: l) = words l := by
  unfold words
  rw [splitWs_cons_ws c l h, List.filter_cons]
  simp

theorem words_trimLeft (l : Str) : words (trimLeft l) = words l := by
  induction l with
  | nil => rfl
  | cons c cs ih =>
    by_cases h : c.isWhitespace = true
    · have : trimLeft (c :: cs) = trimLeft cs := by
        unfold trimLeft
        rw [List.dropWhile_cons]
        simp [h]
      rw [this, ih, words_ws_cons c cs h]
    · have : trimLeft (c :: cs) = c :: cs := by
        unfold trimLeft
        rw [List.dropWhile_cons]
        simp [h]
      rw [this]

theorem words_trimRight (r : Str) :
    words ((r.reverse.dropWhile Char.isWhitespace).reverse) = words r := by
  have hmem : ∀ c ∈ (r.reverse.takeWhile Char.isWhitespace).reverse, c.isWhitespace = true := by
    intro c hc
    exact List.mem_takeWhile_imp (List.mem_reverse.mp hc)
  calc words ((r.reverse.dropWhile Char.isWhitespace).reverse)
      = words ((r.reverse.dropWhile Char.isWhitespace).reverse ++
          (r.reverse.takeWhile Char.isWhitespace).reverse) :=
        (words_append_ws_suffix _ _ hmem).symm
    _ = words r := by
        rw [← List.reverse_append, List.takeWhile_append_dropWhile, List.reverse_reverse]

theorem words_trim (l : Str) : words (trim l) = words l := by
  unfold trim
  rw [words_trimRight, words_trimLeft]

theorem words_joinSp (ws : List Str) (hne : ∀ w ∈ ws, w ≠ [])
    (hfree : ∀ w ∈ ws, wsFree w) : words (joinSp ws) = ws := by
  induction ws with
  | nil => rfl
  | cons w ws ih =>
    cases ws with
    | nil =>
      show words w = [w]
      unfold words
      rw [splitWs_eq_single w (hfree w (List.mem_cons_self w [])), List.filter_cons]
      simp [hne w (List.mem_cons_self w [])]
    | cons w' ws' =>
      have hne' : ∀ x ∈ w' :: ws', x ≠ [] := fun x hx => hne x (List.mem_cons_of_mem w hx)
      have hfree' : ∀ x ∈ w' :: ws', wsFree x := fun x hx => hfree x (List.mem_cons_of_mem w hx)
      have hrec : words (joinSp (w' :: ws')) = w' :: ws' := ih hne' hfree'
      rcases hsp : splitWs (joinSp (w' :: ws')) with _ | ⟨p, ps⟩
      · exact absurd hsp (splitWs_ne_nil _)
      have h1 : splitWs (' ' :: joinSp (w' :: ws')) = [] :: p :: ps := by
        rw [splitWs_cons_ws ' ' _ (by decide), hsp]
      have h2 : splitWs (w ++ ' ' :: joinSp (w' :: ws')) = (w ++ []) :: p :: ps :=
        splitWs_append_word w (hfree w (List.mem_cons_self w _)) _ [] (p :: ps) h1
      have h3 : List.filter (fun x : Str => x ≠ []) (p :: ps) = w' :: ws' := by
        have h4 := hrec
        unfold words at h4
        rw [hsp] at h4
        exact h4
      show words (w ++ ' ' :: joinSp (w' :: ws')) = w :: w' :: ws'
      unfold words
      rw [h2, List.append_nil, List.filter_cons]
      simp only [hne w (List.mem_cons_self w _), h3]
      simp [hne w (List.mem_cons_self w _)]

/-! ### Lowercasing and the canonical form of normalize_topic -/

theorem toLower_space : Char.toLower ' ' = ' ' := by decide

theorem lowerStr_joinSp (ws : List Str) :
    lowerStr (joinSp ws) = joinSp (ws.map lowerStr) := by
  induction ws with
  | nil => rfl
  | cons w ws ih =>
    cases ws with
    | nil => rfl
    | cons w' ws' =>
      have lhs : joinSp (w :: w' :: ws') = w ++ ' ' :: joinSp (w' :: ws') := rfl
      have rhs : joinSp ((w :: w' :: ws').map lowerStr)
          = lowerStr w ++ ' ' :: joinSp ((w' :: ws').map lowerStr) := rfl
      rw [lhs, rhs, ← ih]
      show List.map Char.toLower (w ++ ' ' :: joinSp (w' :: ws'))
          = List.map Char.toLower w ++ ' ' :: List.map Char.toLower (joinSp (w' :: ws'))
      rw [List.map_append, List.map_cons, toLower_space]

theorem wsFree_lowerStr (w : Str) (h : wsFree w) : wsFree (lowerStr w) := by
  intro c hc
  rcases List.mem_map.mp hc with ⟨d, hd, rfl⟩
  rw [isWhitespace_toLower]
  exact h d hd

theorem lowerStr_ne_nil (w : Str) (h : w ≠ []) : lowerStr w ≠ [] := by
  cases w with
  | nil => exact absurd rfl h
  | cons c cs => simp [lowerStr]

theorem lowerStr_idem (w : Str) : lowerStr (lowerStr w) = lowerStr w := by
  unfold lowerStr
  rw [List.map_map]
  exact List.map_congr_left (fun a _ => toLower_idem a)

theorem normalize_topic_eq (s : Str) :
    normalize_topic s = joinSp ((words s).map lowerStr) := by
  unfold normalize_topic
  rw [words_trim]
  exact lowerStr_joinSp (words s)

theorem normalize_topic_idem (s : Str) :
    normalize_topic (normalize_topic s) = normalize_topic s := by
  rw [normalize_topic_eq s]
  have hne : ∀ w ∈ (words s).map lowerStr, w ≠ [] := by
    intro w hw
    rcases List.mem_map.mp hw with ⟨d, hd, rfl⟩
    exact lowerStr_ne_nil d (words_ne_nil s d hd)
  have hfree : ∀ w ∈ (words s).map lowerStr, wsFree w := by
    intro w hw
    rcases List.mem_map.mp hw with ⟨d, hd, rfl⟩
    exact wsFree_lowerStr d (words_wsFree s d hd)
  rw [normalize_topic_eq (joinSp ((words s).map lowerStr)),
    words_joinSp ((words s).map lowerStr) hne hfree]
  congr 1
  rw [List.map_map]
  exact List.map_congr_left (fun a _ => lowerStr_idem a)

/-! ### Association-list dictionary lemmas -/

theorem getD_dictSet_self (m : List (Str × Int)) (k : Str) (v : Int) :
    getD (dictSet m k v) k = v := by
  induction m with
  | nil => simp [dictSet, getD]
  | cons p rest ih =>
    obtain ⟨a, b⟩ := p
    by_cases h : a = k
    · simp [dictSet, h, getD]
    · simp [dictSet, h, getD, ih]

theorem getD_dictSet_ne (m : List (Str × Int)) (k k' : Str) (v : Int) (h : k' ≠ k) :
    getD (dictSet m k v) k' = getD m k' := by
  induction m with
  | nil =>
    simp only [dictSet, getD]
    rw [if_neg (fun he => h he.symm)]
  | cons p rest ih =>
    obtain ⟨a, b⟩ := p
    by_cases hak : a = k
    · subst hak
      have hne : a ≠ k' := fun he => h he.symm
      simp [dictSet, getD, hne]
    · simp [dictSet, hak, getD, ih]

theorem getD_not_mem (m : List (Str × Int)) (k : Str) (h : k ∉ keysOf m) :
    getD m k = 0 := by
  induction m with
  | nil => rfl
  | cons p rest ih =>
    obtain ⟨a, b⟩ := p
    have h1 : a ≠ k := by
      intro he
      exact h (by simp [keysOf, he])
    have h2 : k ∉ keysOf rest := by
      intro hm
      exact h (by simp [keysOf] at hm ⊢; right; exact hm)
    simp [getD, h1, ih h2]

theorem dictSet_not_mem (m : List (Str × Int)) (k : Str) (v : Int) (h : k ∉ keysOf m) :
    dictSet m k v = m ++ [(k, v)] := by
  induction m with
  | nil => rfl
  | cons p rest ih =>
    obtain ⟨a, b⟩ := p
    have h1 : a ≠ k := by
      intro he
      exact h (by simp [keysOf, he])
    have h2 : k ∉ keysOf rest := by
      intro hm
      exact h (by simp [keysOf] at hm ⊢; right; exact hm)
    simp [dictSet, h1, ih h2]

theorem keysOf_dictSet_mem (m : List (Str × Int)) (k : Str) (v : Int) :
    k ∈ keysOf m → keysOf (dictSet m k v) = keysOf m := by
  induction m with
  | nil => intro h; simp [keysOf] at h
  | cons p rest ih =>
    intro h
    obtain ⟨a, b⟩ := p
    by_cases hak : a = k
    · subst hak
      simp [dictSet, keysOf]
    · have h2 : k ∈ keysOf rest := by
        simp [keysOf] at h
        rcases h with h | h
        · exact absurd h.symm hak
        · simpa [keysOf] using h
      simp only [dictSet, if_neg hak]
      simpa [keysOf] using ih h2

theorem keysOf_dictSet_not_mem (m : List (Str × Int)) (k : Str) (v : Int)
    (h : k ∉ keysOf m) : keysOf (dictSet m k v) = keysOf m ++ [k] := by
  rw [dictSet_not_mem m k v h]
  simp [keysOf]

theorem nodup_keysOf_dictSet (m : List (Str × Int)) (k : Str) (v : Int)
    (h : (keysOf m).Nodup) : (keysOf (dictSet m k v)).Nodup := by
  by_cases hm : k ∈ keysOf m
  · rw [keysOf_dictSet_mem m k v hm]; exact h
  · rw [keysOf_dictSet_not_mem m k v hm]
    simpa [List.nodup_append] using ⟨h, hm⟩

theorem mem_dictSet (m : List (Str × Int)) (k : Str) (v : Int) (p : Str × Int)
    (hp : p ∈ dictSet m k v) : p ∈ m ∨ p = (k, v) := by
  induction m with
  | nil => simp [dictSet] at hp; right; exact hp
  | cons q rest ih =>
    obtain ⟨a, b⟩ := q
    by_cases hak : a = k
    · simp [dictSet, hak] at hp
      rcases hp with hp | hp
      · right; simp [hp]
      · left; exact List.mem_cons_of_mem _ hp
    · simp only [dictSet, if_neg hak] at hp
      rcases List.mem_cons.mp hp with hp | hp
      · left; simp [hp]
      · rcases ih hp with h | h
        · left; exact List.mem_cons_of_mem _ h
        · right; exact h

theorem mem_keysOf_dictSet (m : List (Str × Int)) (k : Str) (v : Int) (k' : Str) :
    k' ∈ keysOf (dictSet m k v) ↔ k' ∈ keysOf m ∨ k' = k := by
  by_cases hm : k ∈ keysOf m
  · rw [keysOf_dictSet_mem m k v hm]
    constructor
    · exact Or.inl
    · rintro (h | rfl)
      · exact h
      · exact hm
  · rw [keysOf_dictSet_not_mem m k v hm]
    simp

/-! ### load_progress and save_progress lemmas -/

theorem getD_loadStep (acc : List (Str × Int)) (kv : Str × Option Int) (k : Str)
    (hk : k ≠ []) : getD (loadStep acc kv) k = getD acc k + contrib k kv := by
  unfold loadStep contrib
  by_cases h1 : normalize_topic kv.1 = []
  · rw [if_pos h1, if_neg (fun he : normalize_topic kv.1 = k => hk (he ▸ h1))]
    omega
  · rw [if_neg h1]
    cases hv : kv.2 with
    | none =>
      by_cases h2 : normalize_topic kv.1 = k <;> simp [h2]
    | some n =>
      by_cases h2 : normalize_topic kv.1 = k
      · rw [if_pos h2, h2, getD_dictSet_self]
      · rw [if_neg h2, getD_dictSet_ne _ _ _ _ (fun he => h2 he.symm)]
        omega

theorem getD_foldl_loadStep (entries : List (Str × Option Int)) (k : Str) (hk : k ≠ []) :
    ∀ acc, getD (entries.foldl loadStep acc) k
      = getD acc k + (entries.map (contrib k)).sum := by
  induction entries with
  | nil => intro acc; simp
  | cons kv rest ih =>
    intro acc
    rw [List.foldl_cons, ih (loadStep acc kv), List.map_cons, List.sum_cons,
      getD_loadStep acc kv k hk]
    omega

theorem canon_dictSet (m : List (Str × Int)) (k : Str) (v : Int) (h : Canon m)
    (hk1 : k ≠ []) (hk2 : normalize_topic k = k) : Canon (dictSet m k v) := by
  constructor
  · intro p hp
    rcases mem_dictSet m k v p hp with hp | hp
    · exact h.1 p hp
    · subst hp; exact ⟨hk1, hk2⟩
  · exact nodup_keysOf_dictSet m k v h.2

theorem canon_loadStep (acc : List (Str × Int)) (kv : Str × Option Int)
    (h : Canon acc) : Canon (loadStep acc kv) := by
  unfold loadStep
  by_cases h1 : normalize_topic kv.1 = []
  · rw [if_pos h1]; exact h
  · rw [if_neg h1]
    cases hv : kv.2 with
    | none => exact h
    | some n => exact canon_dictSet acc _ _ h h1 (normalize_topic_idem kv.1)

theorem canon_foldl_loadStep (entries : List (Str × Option Int)) :
    ∀ acc, Canon acc → Canon (entries.foldl loadStep acc) := by
  induction entries with
  | nil => intro acc h; exact h
  | cons kv rest ih =>
    intro acc h
    rw [List.foldl_cons]
    exact ih (loadStep acc kv) (canon_loadStep acc kv h)

theorem canon_load (store : Store) : Canon (load_progress store) := by
  cases store with
  | none => exact ⟨fun p hp => absurd hp (List.not_mem_nil p), List.nodup_nil⟩
  | some entries =>
    exact canon_foldl_loadStep entries [] ⟨fun p hp => absurd hp (List.not_mem_nil p),
      List.nodup_nil⟩

theorem keysOf_cons (p : Str × Int) (rest : List (Str × Int)) :
    keysOf (p :: rest) = p.1 :: keysOf rest := rfl

theorem keysOf_append (m1 m2 : List (Str × Int)) :
    keysOf (m1 ++ m2) = keysOf m1 ++ keysOf m2 := List.map_append _ _ _

theorem foldl_loadStep_canon_entries (m : List (Str × Int)) :
    ∀ acc, (∀ p ∈ m, p.1 ≠ [] ∧ normalize_topic p.1 = p.1) → (keysOf m).Nodup →
    (∀ x ∈ keysOf m, x ∉ keysOf acc) →
    (m.map (fun kv => (kv.1, some kv.2))).foldl loadStep acc = acc ++ m := by
  induction m with
  | nil => intro acc _ _ _; simp
  | cons p rest ih =>
    intro acc hgood hnodup hfresh
    obtain ⟨k, v⟩ := p
    have hk := hgood (k, v) (List.mem_cons_self _ _)
    have hkacc : k ∉ keysOf acc := hfresh k (by rw [keysOf_cons]; exact List.mem_cons_self _ _)
    have hstep : loadStep acc (k, some v) = acc ++ [(k, v)] := by
      unfold loadStep
      simp only
      rw [hk.2, if_neg hk.1, getD_not_mem acc k hkacc, dictSet_not_mem acc k _ hkacc]
      norm_num
    rw [keysOf_cons] at hnodup
    have hknotrest : k ∉ keysOf rest := (List.nodup_cons.mp hnodup).1
    have hrestnodup : (keysOf rest).Nodup := (List.nodup_cons.mp hnodup).2
    have hfresh' : ∀ x ∈ keysOf rest, x ∉ keysOf (acc ++ [(k, v)]) := by
      intro x hx
      rw [keysOf_append]
      intro hmem
      rcases List.mem_append.mp hmem with hmem | hmem
      · exact hfresh x (by rw [keysOf_cons]; exact List.mem_cons_of_mem _ hx) hmem
      · have hxk : x = k := by simpa [keysOf] using hmem
        exact hknotrest (hxk ▸ hx)
    rw [List.map_cons, List.foldl_cons, hstep,
      ih (acc ++ [(k, v)]) (fun q hq => hgood q (List.mem_cons_of_mem _ hq))
        hrestnodup hfresh']
    rw [List.append_assoc]
    rfl

theorem load_save (m : List (Str × Int)) (h : Canon m) :
    load_progress (save_progress m) = m := by
  show (m.map (fun kv => (kv.1, some kv.2))).foldl loadStep [] = m
  rw [foldl_loadStep_canon_entries m [] h.1 h.2 (by simp [keysOf])]
  rfl

/-! ### update_progress lemmas -/

theorem update_progress_noop (store : Store) (t : Str) (h : normalize_topic t = []) :
    update_progress store t = store := by
  simp [update_progress, h]

theorem load_update (store : Store) (t : Str) (h : normalize_topic t ≠ []) :
    load_progress (update_progress store t)
      = dictSet (load_progress store) (normalize_topic t)
          (getD (load_progress store) (normalize_topic t) + 1) := by
  unfold update_progress
  simp only [if_neg h]
  exact load_save _ (canon_dictSet _ _ _ (canon_load store) h (normalize_topic_idem t))

theorem getD_load_update_self (store : Store) (t : Str) (h : normalize_topic t ≠ []) :
    getD (load_progress (update_progress store t)) (normalize_topic t)
      = getD (load_progress store) (normalize_topic t) + 1 := by
  rw [load_update store t h, getD_dictSet_self]

theorem getD_load_update_other (store : Store) (t k : Str)
    (h : normalize_topic t ≠ []) (hk : k ≠ normalize_topic t) :
    getD (load_progress (update_progress store t)) k = getD (load_progress store) k := by
  rw [load_update store t h, getD_dictSet_ne _ _ _ _ hk]

theorem mem_keys_load_update_other (store : Store) (t k : Str)
    (h : normalize_topic t ≠ []) (hk : k ≠ normalize_topic t) :
    (k ∈ keysOf (load_progress (update_progress store t))
      ↔ k ∈ keysOf (load_progress store)) := by
  rw [load_update store t h, mem_keysOf_dictSet]
  simp [hk]

theorem getD_load_foldl_update (ts : List Str) (k : Str) (hk : k ≠ [])
    (hts : ∀ t ∈ ts, normalize_topic t = k) :
    ∀ store, getD (load_progress (ts.foldl update_progress store)) k
      = getD (load_progress store) k + (ts.length : Int) := by
  induction ts with
  | nil => intro store; simp
  | cons t rest ih =>
    intro store
    have ht : normalize_topic t = k := hts t (List.mem_cons_self _ _)
    have hnt : normalize_topic t ≠ [] := by rw [ht]; exact hk
    rw [List.foldl_cons, ih (fun x hx => hts x (List.mem_cons_of_mem _ hx))
      (update_progress store t)]
    have hstep := getD_load_update_self store t hnt
    rw [ht] at hstep
    rw [hstep]
    simp only [List.length_cons]
    push_cast
    ring

/-! ### Dispatcher (generate) lemmas -/

theorem generateAux_nil (call : Str → CallResult) (le : Str) :
    generateAux call [] le
      = str "Gemini API Error: all candidate models failed. Last error: " ++ le := rfl

theorem generateAux_cons_success (call : Str → CallResult) (m : Str) (rest : List Str)
    (le : Str) (r : GenResponse) (h : call m = .success r) :
    generateAux call (m :: rest) le = extract_text r := by
  conv_lhs => unfold generateAux
  rw [h]

theorem generateAux_cons_notfound (call : Str → CallResult) (m : Str) (rest : List Str)
    (le : Str) (e : Str) (h : call m = .failure e) (hnf : is_not_found e = true) :
    generateAux call (m :: rest) le = generateAux call rest (m ++ str ": " ++ e) := by
  conv_lhs => unfold generateAux
  rw [h]
  simp only [hnf, if_true]

theorem generateAux_cons_other (call : Str → CallResult) (m : Str) (rest : List Str)
    (le : Str) (e : Str) (h : call m = .failure e) (hnf : is_not_found e = false) :
    generateAux call (m :: rest) le = str "Gemini API Error: " ++ e := by
  conv_lhs => unfold generateAux
  rw [h]
  simp only [hnf, Bool.false_eq_true, if_false]

theorem generateAux_indep (call : Str → CallResult) (m : Str) (rest : List Str)
    (le le' : Str) :
    generateAux call (m :: rest) le = generateAux call (m :: rest) le' := by
  cases hc : call m with
  | success r =>
    rw [generateAux_cons_success call m rest le r hc,
      generateAux_cons_success call m rest le' r hc]
  | failure e =>
    cases hnf : is_not_found e with
    | true =>
      rw [generateAux_cons_notfound call m rest le e hc hnf,
        generateAux_cons_notfound call m rest le' e hc hnf]
    | false =>
      rw [generateAux_cons_other call m rest le e hc hnf,
        generateAux_cons_other call m rest le' e hc hnf]

theorem generateAux_skip (call : Str → CallResult) (pre : List Str)
    (hpre : ∀ x ∈ pre, isNotFoundFailure (call x) = true) (m : Str) (suffix : List Str)
    (le le' : Str) :
    generateAux call (pre ++ m :: suffix) le = generateAux call (m :: suffix) le' := by
  induction pre generalizing le with
  | nil => simpa using generateAux_indep call m suffix le le'
  | cons p pre' ih =>
    have hp := hpre p (List.mem_cons_self _ _)
    cases hc : call p with
    | success r => simp [isNotFoundFailure, hc] at hp
    | failure e =>
      have hnf : is_not_found e = true := by simpa [isNotFoundFailure, hc] using hp
      rw [List.cons_append,
        generateAux_cons_notfound call p (pre' ++ m :: suffix) le e hc hnf]
      exact ih (fun x hx => hpre x (List.mem_cons_of_mem _ hx)) _

theorem generateAux_exhaust (call : Str → CallResult) :
    ∀ (ms : List Str) (mN eN le : Str),
      (∀ m ∈ ms, isNotFoundFailure (call m) = true) →
      ms.getLast? = some mN → call mN = .failure eN →
      generateAux call ms le
        = str "Gemini API Error: all candidate models failed. Last error: "
          ++ (mN ++ str ": " ++ eN) := by
  intro ms
  induction ms with
  | nil => intro mN eN le _ hlast _; simp at hlast
  | cons m rest ih =>
    intro mN eN le hall hlast hcall
    have hm := hall m (List.mem_cons_self _ _)
    cases hc : call m with
    | success r => simp [isNotFoundFailure, hc] at hm
    | failure e =>
      have hnf : is_not_found e = true := by simpa [isNotFoundFailure, hc] using hm
      rw [generateAux_cons_notfound call m rest le e hc hnf]
      cases rest with
      | nil =>
        have hmN : mN = m := by simpa using hlast.symm
        subst hmN
        rw [hc] at hcall
        have he : eN = e := by injection hcall with h; exact h.symm
        subst he
        rfl
      | cons r rs =>
        have hlast' : (r :: rs).getLast? = some mN := by
          rw [← List.getLast?_cons_cons (a := m)]
          exact hlast
        exact ih mN eN _ (fun x hx => hall x (List.mem_cons_of_mem _ hx)) hlast' hcall

theorem loadStep_invalid (acc : List (Str × Int)) (kv : Str × Option Int)
    (h : normalize_topic kv.1 = [] ∨ kv.2 = none) : loadStep acc kv = acc := by
  unfold loadStep
  rcases h with h | h
  · simp [h]
  · by_cases h1 : normalize_topic kv.1 = [] <;> simp [h1, h]

theorem statuses_pos_iff (call : Str → CallResult) (cands : List Str) (t : Tag) :
    0 < statuses call cands t ↔ t ∈ cands.map (probeTag call) := by
  unfold statuses
  exact List.count_pos_iff

theorem statuses_eq_length_iff (call : Str → CallResult) (cands : List Str) (t : Tag) :
    statuses call cands t = cands.length
      ↔ ∀ x ∈ cands.map (probeTag call), x = t := by
  unfold statuses
  rw [show cands.length = (cands.map (probeTag call)).length from
    (List.length_map cands (probeTag call)).symm]
  rw [List.count_eq_length]
  constructor
  · intro h x hx
    exact (h x hx).symm
  · intro h x hx
    exact (h x hx).symm

/-! ## The claims -/

/-- Claim C1: for every ordered model-candidate list and every assignment of
outcomes (success with a response, or failure with an error string) to the
external call per model, generate tries candidates in list order: candidates
failing with a "not found" error are passed over; the first candidate that
succeeds makes generate return its extracted text immediately, whatever the
outcomes assigned to the remaining candidates; the first candidate that fails
with an error of any other class makes generate return immediately the
sentinel prefix "Gemini API Error:" followed by the raw error detail,
whatever the outcomes of the remaining candidates; and if every candidate
fails with "not found", generate returns the sentinel-prefixed exhaustion
message containing the last error seen. -/
theorem C1_generate_fallback (call : Str → CallResult) (pre : List Str)
    (hpre : ∀ x ∈ pre, isNotFoundFailure (call x) = true) :
    (∀ m rest r, call m = .success r →
        generate call (pre ++ m :: rest) = extract_text r) ∧
    (∀ m rest e, call m = .failure e → is_not_found e = false →
        generate call (pre ++ m :: rest) = str "Gemini API Error: " ++ e) ∧
    (∀ mN eN, pre.getLast? = some mN → call mN = .failure eN →
        generate call pre
          = str "Gemini API Error: all candidate models failed. Last error: "
            ++ (mN ++ str ": " ++ eN)) := by
  refine ⟨?_, ?_, ?_⟩
  · intro m rest r h
    unfold generate
    rw [generateAux_skip call pre hpre m rest [] [],
      generateAux_cons_success call m rest [] r h]
  · intro m rest e h hnf
    unfold generate
    rw [generateAux_skip call pre hpre m rest [] [],
      generateAux_cons_other call m rest [] e h hnf]
  · intro mN eN hlast hcall
    exact generateAux_exhaust call pre mN eN [] hpre hlast hcall

/-- Witness for C1: a concrete two-candidate list on which both candidates
fail with "not found" errors, so generate returns the exhaustion message
carrying the last candidate's error. -/
theorem C1_generate_fallback_witness :
    generate callNotFound [str "modelA", str "modelB"]
      = str "Gemini API Error: all candidate models failed. Last error: "
        ++ (str "modelB" ++ str ": " ++ str "404 NOT Found: other") :=
  (C1_generate_fallback callNotFound [str "modelA", str "modelB"] (by decide)).2.2
    (str "modelB") (str "404 NOT Found: other") (by decide) rfl

/-- Claim C3: get_difficulty normalizes the topic, looks up its stored count
with default 0, and returns "easy" exactly when the count is greater than 5,
"medium" exactly when the count is greater than 2 and at most 5, and "hard"
otherwise (in particular counts 0, 1, 2 give "hard", 3, 4, 5 give "medium",
and 6 and above give "easy"). -/
theorem C3_get_difficulty (store : Store) (topic : Str) :
    (get_difficulty store topic = str "easy"
      ↔ 5 < getD (load_progress store) (normalize_topic topic)) ∧
    (get_difficulty store topic = str "medium"
      ↔ (2 < getD (load_progress store) (normalize_topic topic)
          ∧ getD (load_progress store) (normalize_topic topic) ≤ 5)) ∧
    (get_difficulty store topic = str "hard"
      ↔ getD (load_progress store) (normalize_topic topic) ≤ 2) := by
  by_cases h5 : 5 < getD (load_progress store) (normalize_topic topic)
  · have hg : get_difficulty store topic = str "easy" := by
      simp [get_difficulty, h5]
    rw [hg]
    exact ⟨⟨fun _ => h5, fun _ => rfl⟩,
      ⟨fun he => absurd he (by decide), fun hc => absurd hc.2 (by omega)⟩,
      ⟨fun he => absurd he (by decide), fun hc => absurd hc (by omega)⟩⟩
  · by_cases h2 : 2 < getD (load_progress store) (normalize_topic topic)
    · have hg : get_difficulty store topic = str "medium" := by
        simp [get_difficulty, h5, h2]
      rw [hg]
      exact ⟨⟨fun he => absurd he (by decide), fun hc => absurd hc (by omega)⟩,
        ⟨fun _ => ⟨h2, by omega⟩, fun _ => rfl⟩,
        ⟨fun he => absurd he (by decide), fun hc => absurd hc (by omega)⟩⟩
    · have hg : get_difficulty store topic = str "hard" := by
        simp [get_difficulty, h5, h2]
      rw [hg]
      exact ⟨⟨fun he => absurd he (by decide), fun hc => absurd hc (by omega)⟩,
        ⟨fun he => absurd he (by decide), fun hc => absurd hc.1 (by omega)⟩,
        ⟨fun _ => by omega, fun _ => rfl⟩⟩

/-- Claim C4: update_progress is a no-op on the persisted store when the
topic normalizes to the empty string; otherwise it increments the persisted
count of the normalized topic by exactly 1, and calling it N times on topics
sharing a normalized key k yields a persisted count exactly N greater than
before, observable by reloading from storage after each call. -/
theorem C4_update_progress (store : Store) (t : Str) (k : Str) (ts : List Str) :
    (normalize_topic t = [] → update_progress store t = store) ∧
    (normalize_topic t ≠ [] →
      getD (load_progress (update_progress store t)) (normalize_topic t)
        = getD (load_progress store) (normalize_topic t) + 1) ∧
    (k ≠ [] → (∀ x ∈ ts, normalize_topic x = k) →
      getD (load_progress (ts.foldl update_progress store)) k
        = getD (load_progress store) k + (ts.length : Int)) :=
  ⟨fun h => update_progress_noop store t h,
   fun h => getD_load_update_self store t h,
   fun hk hts => getD_load_foldl_update ts k hk hts store⟩

/-- Witness for C4: starting from an empty store, two calls on " Math " and
"MATH" both hit the normalized key "math" and leave its persisted count 2
greater. -/
theorem C4_update_progress_witness :
    getD (load_progress ([str " Math ", str "MATH"].foldl update_progress (some [])))
        (str "math")
      = getD (load_progress (some [])) (str "math") + (2 : Int) :=
  (C4_update_progress (some []) (str "math") (str "math")
    [str " Math ", str "MATH"]).2.2 (by decide) (by decide)

/-- The object-payload behavior of loading: unreadable or malformed content
yields the empty map; an entry whose key normalizes to the empty string or
whose value is not integer-coercible is dropped while its neighbours are
preserved; every key of the returned map is non-empty and normalization-fixed;
and the count of each non-empty key is exactly the sum of the coerced values
of the valid raw entries normalizing to it. -/
theorem load_progress_obj_props (entries pre post : List (Str × Option Int))
    (kv : Str × Option Int) (k : Str) :
    (load_progress none = []) ∧
    (normalize_topic kv.1 = [] ∨ kv.2 = none →
      load_progress (some (pre ++ kv :: post)) = load_progress (some (pre ++ post))) ∧
    (∀ p ∈ load_progress (some entries), p.1 ≠ [] ∧ normalize_topic p.1 = p.1) ∧
    (k ≠ [] →
      getD (load_progress (some entries)) k = ((entries.map (contrib k)).sum)) := by
  refine ⟨rfl, ?_, ?_, ?_⟩
  · intro h
    show (pre ++ kv :: post).foldl loadStep [] = (pre ++ post).foldl loadStep []
    rw [List.foldl_append, List.foldl_append, List.foldl_cons, loadStep_invalid _ kv h]
  · exact (canon_load (some entries)).1
  · intro hk
    show getD (entries.foldl loadStep []) k = _
    rw [getD_foldl_loadStep entries k hk []]
    show 0 + _ = _
    omega

/-- Claim C5 (code bug): the claim promises that load_progress never fails,
but only read_text and json.loads are guarded by the try/except, so a
persisted payload holding valid JSON that is not an object — here the
concrete file text "[1, 2]" — parses successfully and then raises
AttributeError at the unguarded raw.items() call (core.py line 59): the
call fails instead of returning any map, let alone the empty one.  On the
payloads the claim's other sentences describe, loading agrees with the total
model load_progress. -/
theorem C5_load_progress_raises :
    load_progress_raw (RawStore.nonObject (str "[1, 2]"))
        = Except.error PyError.attributeError ∧
    (∀ m, load_progress_raw (RawStore.nonObject (str "[1, 2]")) ≠ Except.ok m) ∧
    load_progress_raw RawStore.unreadable = Except.ok (load_progress none) ∧
    (∀ entries, load_progress_raw (RawStore.obj entries)
        = Except.ok (load_progress (some entries))) := by
  refine ⟨rfl, ?_, rfl, fun entries => rfl⟩
  intro m h
  exact Except.noConfusion h

/-- Claim C8: two topic strings that differ only in letter case and in
leading, trailing, or internal whitespace runs — equivalently, whose
sequences of case-folded words coincide — normalize to the same key. -/
theorem C8_normalize_case_ws (s t : Str)
    (h : (words s).map lowerStr = (words t).map lowerStr) :
    normalize_topic s = normalize_topic t := by
  rw [normalize_topic_eq s, normalize_topic_eq t, h]

/-- Witness for C8: the spec's example, " Linear  Algebra " and
"linear algebra" normalize identically. -/
theorem C8_normalize_case_ws_witness :
    normalize_topic (str " Linear  Algebra ") = normalize_topic (str "linear algebra") :=
  C8_normalize_case_ws (str " Linear  Algebra ") (str "linear algebra") (by decide)

/-- Claim C9: text extraction is total (a Lean function, so it never raises)
and returns the response's direct text field when that field is present and
populated; otherwise the text of the first part of the first candidate's
content when that nested structure exists; otherwise the string
representation of the whole response object. -/
theorem C9_extract_text (r : GenResponse) :
    (∀ t, r.text = some t → t ≠ [] → extract_text r = t) ∧
    (r.text = none ∨ r.text = some [] → extract_text r = extractDeep r) ∧
    (∀ c cs ct p ps, r.candidates = c :: cs → c.content = some ct →
      ct.parts = p :: ps → extractDeep r = p.text) ∧
    (r.candidates = [] → extractDeep r = r.repr) ∧
    (∀ c cs, r.candidates = c :: cs → c.content = none → extractDeep r = r.repr) ∧
    (∀ c cs ct, r.candidates = c :: cs → c.content = some ct → ct.parts = [] →
      extractDeep r = r.repr) := by
  refine ⟨?_, ?_, ?_, ?_, ?_, ?_⟩
  · intro t ht hne
    unfold extract_text
    rw [ht]
    dsimp only
    rw [if_neg hne]
  · intro h
    unfold extract_text
    rcases h with h | h
    · rw [h]
    · rw [h]
      dsimp only
      rw [if_pos rfl]
  · intro c cs ct p ps hc hct hp
    unfold extractDeep
    rw [hc]
    dsimp only
    rw [hct]
    dsimp only
    rw [hp]
  · intro h
    unfold extractDeep
    rw [h]
  · intro c cs hc hct
    unfold extractDeep
    rw [hc]
    dsimp only
    rw [hct]
  · intro c cs ct hc hct hp
    unfold extractDeep
    rw [hc]
    dsimp only
    rw [hct]
    dsimp only
    rw [hp]

/-- Witness for C9: a populated direct text field is returned as is. -/
theorem C9_extract_text_witness :
    extract_text ⟨some (str "hi"), [], str "repr"⟩ = str "hi" :=
  (C9_extract_text ⟨some (str "hi"), [], str "repr"⟩).1 (str "hi") rfl (by decide)

/-- Claim C10: for every topic t whose normalized form is non-empty and
every normalized key k different from t's normalized form, update_progress
leaves the persisted entry for k exactly as loaded immediately before the
call: same count and same membership; it never removes, decreases, or
otherwise alters any other topic's count. -/
theorem C10_update_progress_frame (store : Store) (t k : Str)
    (h : normalize_topic t ≠ []) (_hnorm : normalize_topic k = k)
    (hk : k ≠ normalize_topic t) :
    getD (load_progress (update_progress store t)) k
        = getD (load_progress store) k ∧
    (k ∈ keysOf (load_progress (update_progress store t))
      ↔ k ∈ keysOf (load_progress store)) :=
  ⟨getD_load_update_other store t k h hk, mem_keys_load_update_other store t k h hk⟩

/-- Witness for C10: updating "A" leaves the stored count of "b" untouched. -/
theorem C10_update_progress_frame_witness :
    getD (load_progress (update_progress (some [(str "b", some 3)]) (str "A"))) (str "b")
        = getD (load_progress (some [(str "b", some 3)])) (str "b") ∧
    (str "b" ∈ keysOf (load_progress (update_progress (some [(str "b", some 3)]) (str "A")))
      ↔ str "b" ∈ keysOf (load_progress (some [(str "b", some 3)]))) :=
  C10_update_progress_frame (some [(str "b", some 3)]) (str "A") (str "b")
    (by decide) (by decide) (by decide)

/-- Counterexample to C6 as stated: the message "Invalid API key" contains
none of the trigger substrings the claim lists, so by the claim it should be
classified ERROR, but _classify_error classifies it AUTH through the
"invalid api key" trigger the claim omits. -/
theorem C6_classify_error_counterexample :
    classify_error (str "Invalid API key") = Tag.AUTH ∧
    classify_error (str "Invalid API key") ≠ Tag.ERROR := by
  constructor <;> decide

/-- Claim C6 (amended): the classification function returns exactly one tag
of the closed set by case-insensitive substring matching on the message, in
this priority order: "404" together with "not_found" or "not found" gives
NOT_FOUND; otherwise "429" or "resource_exhausted" gives QUOTA_EXHAUSTED;
otherwise "401", "unauthenticated", or "invalid api key" gives AUTH;
otherwise "403" or "permission_denied" gives PERMISSION; otherwise
"deadline_exceeded", "timed out", or "timeout" gives TIMEOUT; any other
message gives ERROR. -/
theorem C6_classify_error_amended (e : Str) :
    (classify_error e = Tag.NOT_FOUND ↔ is_not_found e = true) ∧
    (classify_error e = Tag.QUOTA_EXHAUSTED
      ↔ (is_not_found e = false ∧ quotaTrigger (lowerStr e) = true)) ∧
    (classify_error e = Tag.AUTH
      ↔ (is_not_found e = false ∧ quotaTrigger (lowerStr e) = false
          ∧ authTrigger (lowerStr e) = true)) ∧
    (classify_error e = Tag.PERMISSION
      ↔ (is_not_found e = false ∧ quotaTrigger (lowerStr e) = false
          ∧ authTrigger (lowerStr e) = false ∧ permTrigger (lowerStr e) = true)) ∧
    (classify_error e = Tag.TIMEOUT
      ↔ (is_not_found e = false ∧ quotaTrigger (lowerStr e) = false
          ∧ authTrigger (lowerStr e) = false ∧ permTrigger (lowerStr e) = false
          ∧ timeoutTrigger (lowerStr e) = true)) ∧
    (classify_error e = Tag.ERROR
      ↔ (is_not_found e = false ∧ quotaTrigger (lowerStr e) = false
          ∧ authTrigger (lowerStr e) = false ∧ permTrigger (lowerStr e) = false
          ∧ timeoutTrigger (lowerStr e) = false)) := by
  have hcl : classify_error e =
      (if is_not_found e then Tag.NOT_FOUND
       else if quotaTrigger (lowerStr e) then Tag.QUOTA_EXHAUSTED
       else if authTrigger (lowerStr e) then Tag.AUTH
       else if permTrigger (lowerStr e) then Tag.PERMISSION
       else if timeoutTrigger (lowerStr e) then Tag.TIMEOUT
       else Tag.ERROR) := rfl
  rw [hcl]
  cases h1 : is_not_found e <;> cases h2 : quotaTrigger (lowerStr e) <;>
    cases h3 : authTrigger (lowerStr e) <;> cases h4 : permTrigger (lowerStr e) <;>
    cases h5 : timeoutTrigger (lowerStr e) <;> simp

/-- Claim C7: the summary verdict of check_access follows the priority order
over the tallied per-model tags: any OK makes the service reachable;
otherwise any AUTH gives the auth-blocked verdict; otherwise any PERMISSION
gives the permission-blocked verdict; otherwise any QUOTA_EXHAUSTED gives
the quota-blocked verdict; otherwise all configured models tagged NOT_FOUND
gives the configuration-blocked (bad model names) verdict; otherwise the
generic network/runtime-blocked verdict. -/
theorem C7_check_access_verdict (call : Str → CallResult) (cands : List Str) :
    (check_access_verdict call cands
        = str "Result: Gemini is reachable. At least one configured model works."
      ↔ Tag.OK ∈ cands.map (probeTag call)) ∧
    (check_access_verdict call cands
        = str "Blocked by authentication. Check GOOGLE_API_KEY."
      ↔ (Tag.OK ∉ cands.map (probeTag call)
          ∧ Tag.AUTH ∈ cands.map (probeTag call))) ∧
    (check_access_verdict call cands
        = str "Blocked by project/API permissions for this key."
      ↔ (Tag.OK ∉ cands.map (probeTag call) ∧ Tag.AUTH ∉ cands.map (probeTag call)
          ∧ Tag.PERMISSION ∈ cands.map (probeTag call))) ∧
    (check_access_verdict call cands
        = str "Blocked by quota/billing limits on this project."
      ↔ (Tag.OK ∉ cands.map (probeTag call) ∧ Tag.AUTH ∉ cands.map (probeTag call)
          ∧ Tag.PERMISSION ∉ cands.map (probeTag call)
          ∧ Tag.QUOTA_EXHAUSTED ∈ cands.map (probeTag call))) ∧
    (check_access_verdict call cands
        = str "Blocked by model names. None of the configured models are available."
      ↔ (Tag.OK ∉ cands.map (probeTag call) ∧ Tag.AUTH ∉ cands.map (probeTag call)
          ∧ Tag.PERMISSION ∉ cands.map (probeTag call)
          ∧ Tag.QUOTA_EXHAUSTED ∉ cands.map (probeTag call)
          ∧ ∀ x ∈ cands.map (probeTag call), x = Tag.NOT_FOUND)) ∧
    (check_access_verdict call cands
        = str "Blocked by API/network/runtime errors. See per-model details above."
      ↔ (Tag.OK ∉ cands.map (probeTag call) ∧ Tag.AUTH ∉ cands.map (probeTag call)
          ∧ Tag.PERMISSION ∉ cands.map (probeTag call)
          ∧ Tag.QUOTA_EXHAUSTED ∉ cands.map (probeTag call)
          ∧ ¬ ∀ x ∈ cands.map (probeTag call), x = Tag.NOT_FOUND)) := by
  have hOK := statuses_pos_iff call cands Tag.OK
  have hA := statuses_pos_iff call cands Tag.AUTH
  have hP := statuses_pos_iff call cands Tag.PERMISSION
  have hQ := statuses_pos_iff call cands Tag.QUOTA_EXHAUSTED
  have hNF := statuses_eq_length_iff call cands Tag.NOT_FOUND
  unfold check_access_verdict
  by_cases c1 : Tag.OK ∈ cands.map (probeTag call)
  · rw [if_pos (hOK.mpr c1)]
    exact ⟨⟨fun _ => c1, fun _ => rfl⟩,
      ⟨fun he => absurd he (by decide), fun hc => absurd c1 hc.1⟩,
      ⟨fun he => absurd he (by decide), fun hc => absurd c1 hc.1⟩,
      ⟨fun he => absurd he (by decide), fun hc => absurd c1 hc.1⟩,
      ⟨fun he => absurd he (by decide), fun hc => absurd c1 hc.1⟩,
      ⟨fun he => absurd he (by decide), fun hc => absurd c1 hc.1⟩⟩
  · rw [if_neg (fun hpos => c1 (hOK.mp hpos))]
    by_cases c2 : Tag.AUTH ∈ cands.map (probeTag call)
    · rw [if_pos (hA.mpr c2)]
      exact ⟨⟨fun he => absurd he (by decide), fun hmem => absurd hmem c1⟩,
        ⟨fun _ => ⟨c1, c2⟩, fun _ => rfl⟩,
        ⟨fun he => absurd he (by decide), fun hc => absurd c2 hc.2.1⟩,
        ⟨fun he => absurd he (by decide), fun hc => absurd c2 hc.2.1⟩,
        ⟨fun he => absurd he (by decide), fun hc => absurd c2 hc.2.1⟩,
        ⟨fun he => absurd he (by decide), fun hc => absurd c2 hc.2.1⟩⟩
    · rw [if_neg (fun hpos => c2 (hA.mp hpos))]
      by_cases c3 : Tag.PERMISSION ∈ cands.map (probeTag call)
      · rw [if_pos (hP.mpr c3)]
        exact ⟨⟨fun he => absurd he (by decide), fun hmem => absurd hmem c1⟩,
          ⟨fun he => absurd he (by decide), fun hc => absurd hc.2 c2⟩,
          ⟨fun _ => ⟨c1, c2, c3⟩, fun _ => rfl⟩,
          ⟨fun he => absurd he (by decide), fun hc => absurd c3 hc.2.2.1⟩,
          ⟨fun he => absurd he (by decide), fun hc => absurd c3 hc.2.2.1⟩,
          ⟨fun he => absurd he (by decide), fun hc => absurd c3 hc.2.2.1⟩⟩
      · rw [if_neg (fun hpos => c3 (hP.mp hpos))]
        by_cases c4 : Tag.QUOTA_EXHAUSTED ∈ cands.map (probeTag call)
        · rw [if_pos (hQ.mpr c4)]
          exact ⟨⟨fun he => absurd he (by decide), fun hmem => absurd hmem c1⟩,
            ⟨fun he => absurd he (by decide), fun hc => absurd hc.2 c2⟩,
            ⟨fun he => absurd he (by decide), fun hc => absurd hc.2.2 c3⟩,
            ⟨fun _ => ⟨c1, c2, c3, c4⟩, fun _ => rfl⟩,
            ⟨fun he => absurd he (by decide), fun hc => absurd c4 hc.2.2.2.1⟩,
            ⟨fun he => absurd he (by decide), fun hc => absurd c4 hc.2.2.2.1⟩⟩
        · rw [if_neg (fun hpos => c4 (hQ.mp hpos))]
          by_cases c5 : ∀ x ∈ cands.map (probeTag call), x = Tag.NOT_FOUND
          · rw [if_pos (hNF.mpr c5)]
            exact ⟨⟨fun he => absurd he (by decide), fun hmem => absurd hmem c1⟩,
              ⟨fun he => absurd he (by decide), fun hc => absurd hc.2 c2⟩,
              ⟨fun he => absurd he (by decide), fun hc => absurd hc.2.2 c3⟩,
              ⟨fun he => absurd he (by decide), fun hc => absurd hc.2.2.2 c4⟩,
              ⟨fun _ => ⟨c1, c2, c3, c4, c5⟩, fun _ => rfl⟩,
              ⟨fun he => absurd he (by decide), fun hc => absurd c5 hc.2.2.2.2⟩⟩
          · rw [if_neg (fun heq => c5 (hNF.mp heq))]
            exact ⟨⟨fun he => absurd he (by decide), fun hmem => absurd hmem c1⟩,
              ⟨fun he => absurd he (by decide), fun hc => absurd hc.2 c2⟩,
              ⟨fun he => absurd he (by decide), fun hc => absurd hc.2.2 c3⟩,
              ⟨fun he => absurd he (by decide), fun hc => absurd hc.2.2.2 c4⟩,
              ⟨fun he => absurd he (by decide), fun hc => absurd hc.2.2.2.2 c5⟩,
              ⟨fun _ => ⟨c1, c2, c3, c4, c5⟩, fun _ => rfl⟩⟩

/-- Counterexample to C2 as stated: with a topic that normalizes to the
empty key (here the empty topic) and a successful (non-failure) result,
run_and_track creates one note, but update_progress is a no-op, so the
topic's persisted count stays 0 rather than incrementing by exactly 1. -/
theorem C2_run_and_track_counterexample :
    (run_and_track ⟨some [], []⟩ (str "") (str "hello")).2.notes.length = 1 ∧
    ¬ (getD (load_progress (run_and_track ⟨some [], []⟩ (str "") (str "hello")).2.progress)
          (normalize_topic (str ""))
        = getD (load_progress (some [])) (normalize_topic (str "")) + 1) := by
  constructor <;> decide

/-- Claim C2 (amended): when the operation result is a dispatcher failure
string (sentinel prefix "Gemini API Error:"), run_and_track mutates nothing:
the state is returned unchanged and the raw failure text surfaces to the
caller unchanged with no note.  When the result is not a failure string,
exactly one new note holding the result is created and the result is
returned; the topic's persisted progress count increments by exactly 1
provided the topic's normalized key is non-empty, and (as the counterexample
forces) the progress store is unchanged when the normalized key is empty. -/
theorem C2_run_and_track_amended (st : TutorState) (topic result : Str) :
    (is_api_error_text result = true →
      run_and_track st topic result = ((result, none), st)) ∧
    (is_api_error_text result = false →
      (run_and_track st topic result).1 = (result, some result) ∧
      (run_and_track st topic result).2.notes = st.notes ++ [result] ∧
      (normalize_topic topic ≠ [] →
        getD (load_progress (run_and_track st topic result).2.progress)
            (normalize_topic topic)
          = getD (load_progress st.progress) (normalize_topic topic) + 1) ∧
      (normalize_topic topic = [] →
        (run_and_track st topic result).2.progress = st.progress)) := by
  constructor
  · intro h
    unfold run_and_track
    rw [if_pos h]
  · intro h
    have hr : run_and_track st topic result
        = ((result, some result),
           ⟨update_progress st.progress topic, st.notes ++ [result]⟩) := by
      unfold run_and_track
      rw [if_neg (by simp [h])]
      rfl
    rw [hr]
    refine ⟨rfl, rfl, ?_, ?_⟩
    · intro hne
      exact getD_load_update_self st.progress topic hne
    · intro hempty
      exact update_progress_noop st.progress topic hempty

/-- Witness for C2 (amended): a successful result on topic "Math" creates
one note and bumps the persisted count of "math" from 0 to 1. -/
theorem C2_run_and_track_amended_witness :
    getD (load_progress (run_and_track ⟨some [], []⟩ (str "Math") (str "ans")).2.progress)
        (normalize_topic (str "Math"))
      = getD (load_progress (some [])) (normalize_topic (str "Math")) + 1 :=
  ((C2_run_and_track_amended ⟨some [], []⟩ (str "Math") (str "ans")).2
    (by decide)).2.2.1 (by decide)

end Soma
